import Mathlib

/-!
# LANShare (`app.py`) — verification of the spec's claims

Shallow embedding of the LAN file/text sharing tool.  The File Store is
modelled as the flat association list `name ↦ byte content` of regular files
in the upload directory; the Text Store as the list of snippets persisted in
`texts.json`.  Machine-level concerns (sockets, threading, wall-clock time)
are outside the model; nondeterministic inputs of the code (the random UUID,
the current time) are passed as explicit parameters.
-/

namespace LANShare

/-- Python string slice `s[:n]` (used as `str(uuid.uuid4())[:8]`). -/
def strTake (s : String) (n : Nat) : String := ⟨s.data.take n⟩

/-- One decimal digit character, as produced by Python's `str` on `0..9`. -/
def digitChar (n : Nat) : Char :=
  match n with
  | 0 => '0' | 1 => '1' | 2 => '2' | 3 => '3' | 4 => '4'
  | 5 => '5' | 6 => '6' | 7 => '7' | 8 => '8' | 9 => '9'
  | _ => '*'

/-- Decimal digit list, most significant first, with structural fuel
(`fuel ≥ n` suffices, see `natDigitsAux_eq_of_le`). -/
def natDigitsAux : Nat → Nat → List Char
  | n, 0 => [digitChar n]
  | n, fuel + 1 =>
      if n < 10 then [digitChar n]
      else natDigitsAux (n / 10) fuel ++ [digitChar (n % 10)]

/-- Decimal digit list of a natural number, most significant first:
Python's `str(counter)` for a nonnegative int. -/
def natDigits (n : Nat) : List Char := natDigitsAux n n

/-- Python `str(n)` for a natural number. -/
def natStr (n : Nat) : String := ⟨natDigits n⟩

/-- Numeric value of a decimal digit character. -/
def digitVal (c : Char) : Nat := c.toNat - 48

/-- Decode a most-significant-first digit list back to a number. -/
def digitsVal (cs : List Char) : Nat := cs.foldl (fun a c => a * 10 + digitVal c) 0

theorem digitVal_digitChar {n : Nat} (h : n < 10) : digitVal (digitChar n) = n := by
  interval_cases n <;> rfl

theorem digitsVal_append (l₁ l₂ : List Char) :
    digitsVal (l₁ ++ l₂) = l₂.foldl (fun a c => a * 10 + digitVal c) (digitsVal l₁) := by
  simp [digitsVal, List.foldl_append]

theorem digitsVal_natDigitsAux (fuel : Nat) :
    ∀ n : Nat, n < 10 ∨ n ≤ 10 * fuel → digitsVal (natDigitsAux n fuel) = n := by
  induction fuel with
  | zero =>
    intro n h
    have hn : n < 10 := by omega
    simp [natDigitsAux, digitsVal, digitVal_digitChar hn]
  | succ fuel ih =>
    intro n h
    rw [natDigitsAux]
    by_cases hn : n < 10
    · simp [hn, digitsVal, digitVal_digitChar hn]
    · rw [if_neg hn, digitsVal_append]
      have hd : n / 10 < 10 ∨ n / 10 ≤ 10 * fuel := by omega
      simp [List.foldl, ih _ hd, digitVal_digitChar (Nat.mod_lt n (by omega))]
      omega

theorem digitsVal_natDigits (n : Nat) : digitsVal (natDigits n) = n := by
  apply digitsVal_natDigitsAux
  omega

theorem natDigits_injective : Function.Injective natDigits := by
  intro m n h
  have := digitsVal_natDigits m
  rw [h, digitsVal_natDigits] at this
  omega

theorem natStr_injective : Function.Injective natStr := by
  intro m n h
  exact natDigits_injective (congrArg String.data h)

/-! ## File Store -/

/-- The upload directory, modelled as the flat list of its regular files
(`name`, `content`).  Listing order is irrelevant to the claims proved here. -/
abbrev Dir := List (String × String)

/-- The file names present in the directory (`os.listdir`, restricted to
regular files, which is all the store ever creates). -/
def dirNames (d : Dir) : List String := d.map Prod.fst

/-- `os.path.exists(os.path.join(UPLOAD_FOLDER, name))` for a plain file
name inside the upload directory. -/
def dirExists (d : Dir) (name : String) : Bool := decide (name ∈ dirNames d)

/-- Python `os.path.splitext` for a name with no directory component:
split at the last dot, except that a basename consisting only of leading
dots up to that position is not split. -/
def splitext (p : String) : String × String :=
  let cs := p.data
  match (List.range cs.length).filter (fun i => cs.getD i ' ' = '.') |>.getLast? with
  | none => (p, "")
  | some i =>
      if (cs.take i).all (· = '.') then (p, "")
      else (⟨cs.take i⟩, ⟨cs.drop i⟩)

/-- The candidate name `f"{base}_{counter}{ext}"` tried by the collision loop. -/
def candidate (base ext : String) (counter : Nat) : String :=
  base ++ "_" ++ natStr counter ++ ext

/-- The `while os.path.exists(filepath)` loop of `upload_file`, with explicit
fuel (the loop itself terminates because the directory is finite; `save`
invokes this with enough fuel, see `findFree_not_mem`). -/
def findFreeLoop (d : Dir) (base ext : String) : String → Nat → Nat → String
  | filename, _, 0 => filename
  | filename, counter, fuel + 1 =>
      if dirExists d filename then
        findFreeLoop d base ext (candidate base ext counter) (counter + 1) fuel
      else filename

/-- `upload_file`'s save step: pick the collision-free destination name for
`filename`, store the bytes under it, and return the name actually used. -/
def save (d : Dir) (filename content : String) : String × Dir :=
  let (base, ext) := splitext filename
  let final := findFreeLoop d base ext filename 1 (d.length + 1)
  (final, d ++ [(final, content)])

theorem candidate_injective (base ext : String) :
    Function.Injective (candidate base ext) := by
  intro i j h
  have h2 : (candidate base ext i).data = (candidate base ext j).data := congrArg _ h
  simp only [candidate, String.data_append, List.append_assoc] at h2
  have h3 := List.append_cancel_left h2
  have h4 := List.append_cancel_left h3
  have h5 := List.append_cancel_right h4
  exact natStr_injective (String.ext h5)

/-- If some candidate within the fuel is free (or the current name is), the
loop ends on a name not present in the directory. -/
theorem findFreeLoop_not_mem (d : Dir) (base ext : String) :
    ∀ (fuel counter : Nat) (filename : String),
      (filename ∉ dirNames d ∨ ∃ k < fuel, candidate base ext (counter + k) ∉ dirNames d) →
      findFreeLoop d base ext filename counter fuel ∉ dirNames d := by
  intro fuel
  induction fuel with
  | zero =>
    intro counter filename h
    rcases h with h | ⟨k, hk, _⟩
    · simpa [findFreeLoop] using h
    · omega
  | succ fuel ih =>
    intro counter filename h
    rw [findFreeLoop]
    by_cases hmem : dirExists d filename
    · rw [if_pos hmem]
      rcases h with h | ⟨k, hk, hfree⟩
      · exact absurd (by simpa [dirExists] using hmem) h
      · apply ih
        rcases k with _ | k
        · left; simpa using hfree
        · right
          refine ⟨k, by omega, ?_⟩
          have heq : counter + 1 + k = counter + (k + 1) := by omega
          rw [heq]
          exact hfree
    · rw [if_neg hmem]
      simpa [dirExists] using hmem

/-- Pigeonhole: among the `n+1` pairwise-distinct candidates
`base_1.ext … base_(n+1).ext`, where `n` is the number of files in the
directory, at least one is not a file name of the directory. -/
theorem exists_free_candidate (d : Dir) (base ext : String) :
    ∃ k < d.length + 1, candidate base ext (1 + k) ∉ dirNames d := by
  by_contra hall
  push_neg at hall
  set l : List String := (List.range (d.length + 1)).map (fun k => candidate base ext (1 + k))
    with hl
  have hnodup : l.Nodup := by
    refine List.Nodup.map ?_ (List.nodup_range _)
    intro a b hab
    have := candidate_injective base ext hab
    omega
  have hsub : l ⊆ dirNames d := by
    intro x hx
    rw [hl, List.mem_map] at hx
    obtain ⟨k, hk, rfl⟩ := hx
    exact hall k (List.mem_range.mp hk)
  have hle : l.length ≤ (dirNames d).length := (hnodup.subperm hsub).length_le
  have : l.length = d.length + 1 := by simp [hl]
  have : (dirNames d).length = d.length := by simp [dirNames]
  omega

/-- The name chosen by `save` is never a name already in the directory. -/
theorem save_fresh (d : Dir) (filename content : String) :
    (save d filename content).1 ∉ dirNames d := by
  unfold save
  apply findFreeLoop_not_mem
  right
  obtain ⟨k, hk, hfree⟩ := exists_free_candidate d (splitext filename).1 (splitext filename).2
  exact ⟨k, hk, hfree⟩

/-- A name that is already free is returned unchanged by the loop. -/
theorem findFreeLoop_of_free (d : Dir) (base ext : String) (fuel counter : Nat)
    (filename : String) (h : filename ∉ dirNames d) :
    findFreeLoop d base ext filename counter fuel = filename := by
  cases fuel with
  | zero => rfl
  | succ fuel =>
    rw [findFreeLoop, if_neg (by simpa [dirExists] using h)]

/-- The loop returns the candidate of least index when the starting name is
taken and all candidates strictly before index `counter + k` are taken. -/
theorem findFreeLoop_eq_first (d : Dir) (base ext : String) :
    ∀ (fuel counter : Nat) (filename : String) (k : Nat),
      filename ∈ dirNames d → k < fuel →
      candidate base ext (counter + k) ∉ dirNames d →
      (∀ j < k, candidate base ext (counter + j) ∈ dirNames d) →
      findFreeLoop d base ext filename counter fuel = candidate base ext (counter + k) := by
  intro fuel
  induction fuel with
  | zero => omega
  | succ fuel ih =>
    intro counter filename k hfile hk hfree hmin
    rw [findFreeLoop, if_pos (by simpa [dirExists] using hfile)]
    cases k with
    | zero =>
      simp only [Nat.add_zero] at hfree
      simpa [Nat.add_zero] using findFreeLoop_of_free d base ext fuel (counter + 1) _ hfree
    | succ k =>
      have h0 : candidate base ext counter ∈ dirNames d := by
        simpa using hmin 0 (by omega)
      have heq : counter + (k + 1) = counter + 1 + k := by omega
      rw [heq] at hfree ⊢
      refine ih (counter + 1) _ k h0 (by omega) hfree ?_
      intro j hj
      have := hmin (j + 1) (by omega)
      have heq2 : counter + (j + 1) = counter + 1 + j := by omega
      rwa [heq2] at this

/-- C1 core: when the original name collides, `save` uses the candidate
`base_k.ext` of least `k ≥ 1` that is not an existing name, appends the new
file under that name and leaves all existing entries intact. -/
theorem save_collision_spec (d : Dir) (filename content : String)
    (hcoll : filename ∈ dirNames d) :
    ∃ k, 1 ≤ k ∧
      (save d filename content).1 = candidate (splitext filename).1 (splitext filename).2 k ∧
      candidate (splitext filename).1 (splitext filename).2 k ∉ dirNames d ∧
      (∀ j, 1 ≤ j → j < k → candidate (splitext filename).1 (splitext filename).2 j ∈ dirNames d) ∧
      (save d filename content).2 = d ++ [(candidate (splitext filename).1 (splitext filename).2 k, content)] := by
  set base := (splitext filename).1 with hbase
  set ext := (splitext filename).2 with hext
  have hex : ∃ k, candidate base ext (1 + k) ∉ dirNames d := by
    obtain ⟨k, _, hfree⟩ := exists_free_candidate d base ext
    exact ⟨k, hfree⟩
  classical
  let k₀ := Nat.find hex
  have hk₀free : candidate base ext (1 + k₀) ∉ dirNames d := Nat.find_spec hex
  have hk₀min : ∀ j < k₀, candidate base ext (1 + j) ∈ dirNames d := by
    intro j hj
    have := Nat.find_min hex hj
    simpa using this
  obtain ⟨kw, hkw, hkwfree⟩ := exists_free_candidate d base ext
  have hk₀le : k₀ ≤ kw := Nat.find_min' hex hkwfree
  have hloop : findFreeLoop d base ext filename 1 (d.length + 1) = candidate base ext (1 + k₀) := by
    apply findFreeLoop_eq_first d base ext _ _ _ k₀ hcoll (by omega) hk₀free hk₀min
  refine ⟨1 + k₀, by omega, ?_, hk₀free, ?_, ?_⟩
  · show (save d filename content).1 = _
    simp only [save, ← hbase, ← hext]
    exact hloop
  · intro j h1 hj
    have hj' : j - 1 < k₀ := by omega
    have := hk₀min (j - 1) hj'
    have heq : 1 + (j - 1) = j := by omega
    rwa [heq] at this
  · show (save d filename content).2 = _
    simp only [save, ← hbase, ← hext]
    rw [hloop]

/-- C1: collision-safe upload naming.  The chosen name is always fresh
(no file is ever overwritten: all previous entries are kept verbatim and the
new entry is appended under a name not previously present); a colliding
original name is replaced by the first free `base_k.ext` (k = 1, 2, …); a
non-colliding name is used as is; and uploading `a.txt` three times yields
`a.txt`, `a_1.txt`, `a_2.txt` with independently retrievable contents. -/
theorem upload_collision_naming :
    (∀ (d : Dir) (filename content : String),
      (save d filename content).1 ∉ dirNames d ∧
      (save d filename content).2 = d ++ [((save d filename content).1, content)]) ∧
    (∀ (d : Dir) (filename content : String), filename ∉ dirNames d →
      (save d filename content).1 = filename) ∧
    (∀ (d : Dir) (filename content : String), filename ∈ dirNames d →
      ∃ k, 1 ≤ k ∧
        (save d filename content).1 = candidate (splitext filename).1 (splitext filename).2 k ∧
        candidate (splitext filename).1 (splitext filename).2 k ∉ dirNames d ∧
        (∀ j, 1 ≤ j → j < k → candidate (splitext filename).1 (splitext filename).2 j ∈ dirNames d)) ∧
    ((save [] "a.txt" "A").1 = "a.txt" ∧
      (save (save [] "a.txt" "A").2 "a.txt" "B").1 = "a_1.txt" ∧
      (save (save (save [] "a.txt" "A").2 "a.txt" "B").2 "a.txt" "C").1 = "a_2.txt" ∧
      (save (save (save [] "a.txt" "A").2 "a.txt" "B").2 "a.txt" "C").2 =
        [("a.txt", "A"), ("a_1.txt", "B"), ("a_2.txt", "C")]) := by
  refine ⟨?_, ?_, ?_, ?_⟩
  · intro d filename content
    refine ⟨save_fresh d filename content, ?_⟩
    simp only [save]
  · intro d filename content h
    simp only [save]
    exact findFreeLoop_of_free d _ _ _ _ _ h
  · intro d filename content h
    obtain ⟨k, h1, h2, h3, h4, _⟩ := save_collision_spec d filename content h
    exact ⟨k, h1, h2, h3, h4⟩
  · decide

/-- Witness for C1 at a concrete colliding upload. -/
theorem upload_collision_naming_witness :
    ∃ k, 1 ≤ k ∧
      (save [("a.txt", "A")] "a.txt" "B").1 =
        candidate (splitext "a.txt").1 (splitext "a.txt").2 k ∧
      candidate (splitext "a.txt").1 (splitext "a.txt").2 k ∉ dirNames [("a.txt", "A")] ∧
      (∀ j, 1 ≤ j → j < k →
        candidate (splitext "a.txt").1 (splitext "a.txt").2 j ∈ dirNames [("a.txt", "A")]) :=
  upload_collision_naming.2.2.1 [("a.txt", "A")] "a.txt" "B" (by decide)

/-! ## Delete endpoint (`delete_file`) -/

/-- HTTP-level outcome of a mutating endpoint: `jsonify({'success': True})`
or `jsonify({'error': msg}), status`. -/
inductive Resp where
  | success
  | error (status : Nat) (msg : String)
  deriving DecidableEq

/-- `delete_file`: if a file with that exact name exists in the upload
directory, remove it and report success, else report 404.  (`os.remove`
deletes the single entry at that name.) -/
def delete_file (d : Dir) (name : String) : Resp × Dir :=
  if dirExists d name then
    (Resp.success, d.eraseP (fun e => e.1 = name))
  else
    (Resp.error 404 "文件不存在", d)

/-! ## Text Store -/

/-- A persisted text snippet: `{'id': …, 'content': …, 'time': …}`. -/
structure Snippet where
  id : String
  content : String
  time : String
  deriving DecidableEq

/-- A Python value as produced by `request.get_json()` (JSON data decoded
to Python objects; numbers restricted to integers — no claim depends on
floats). `null` doubles as Python `None`, the result for a JSON `null`
body. -/
inductive Py where
  | null
  | bool (b : Bool)
  | num (n : Int)
  | str (s : String)
  | arr (elts : List Py)
  | obj (fields : List (String × Py))

/-- Python exceptions the handler can raise (uncaught → HTTP 500). -/
inductive PyErr where
  | typeError
  | attributeError
  | keyError
  deriving DecidableEq

/-- Python truthiness (`not data`). -/
def pyTruthy : Py → Bool
  | .null => false
  | .bool b => b
  | .num n => decide (n ≠ 0)
  | .str s => decide (s ≠ "")
  | .arr [] => false
  | .arr (_ :: _) => true
  | .obj [] => false
  | .obj (_ :: _) => true

/-- Python `==` between a string and an arbitrary value: equal only to an
equal string (no cross-type string equalities in Python). -/
def pyEqStr (needle : String) : Py → Bool
  | .str s => decide (s = needle)
  | _ => false

/-- Python `key in data` for a string key: key membership for a dict,
element equality for a list, substring test for a string, and a
`TypeError` (argument not iterable) for the other JSON scalars. -/
def pyContains (data : Py) (key : String) : Except PyErr Bool :=
  match data with
  | .obj fields => .ok (fields.any (fun kv => kv.1 = key))
  | .arr elts => .ok (elts.any (pyEqStr key))
  | .str s => .ok (decide (key.data <:+: s.data))
  | _ => .error .typeError

/-- Python `data[key]` for a string key: dict lookup (keys of a decoded
JSON object are unique, so first match is the match), `TypeError` for
lists/strings (indices must be integers) and for the other scalars. -/
def pySubscript (data : Py) (key : String) : Except PyErr Py :=
  match data with
  | .obj fields =>
      match fields.lookup key with
      | some v => .ok v
      | none => .error .keyError
  | _ => .error .typeError

/-- The characters Python `str.strip()` removes (ASCII whitespace; the
exotic Unicode space classes are outside the model). -/
def pyIsSpace (c : Char) : Bool :=
  c = ' ' || c = '\t' || c = '\n' || c = '\r' || c = '\x0b' || c = '\x0c'

/-- Python `s.strip()`. -/
def pyStrip (s : String) : String :=
  ⟨((s.data.dropWhile pyIsSpace).reverse.dropWhile pyIsSpace).reverse⟩

/-- Python `value.strip()`: only a string has the method; anything else
raises `AttributeError`. -/
def pyStripVal : Py → Except PyErr String
  | .str s => .ok (pyStrip s)
  | _ => .error .attributeError

/-- One hexadecimal digit as formatted by Python's `uuid.UUID.__str__`. -/
def hexDigitChar (n : Nat) : Char :=
  match n with
  | 0 => '0' | 1 => '1' | 2 => '2' | 3 => '3' | 4 => '4'
  | 5 => '5' | 6 => '6' | 7 => '7' | 8 => '8' | 9 => '9'
  | 10 => 'a' | 11 => 'b' | 12 => 'c' | 13 => 'd' | 14 => 'e' | 15 => 'f'
  | _ => '*'

/-- Fixed-width big-endian hexadecimal digit list of a number. -/
def hexFixed (n w : Nat) : List Char :=
  (List.range w).map (fun i => hexDigitChar (n / 16 ^ (w - 1 - i) % 16))

/-- `str(uuid.uuid4())` for the 128-bit value `r` drawn by the generator:
the canonical 8-4-4-4-12 grouping, 36 characters. -/
def uuidStr (r : Nat) : String :=
  let v := r % 2 ^ 128
  ⟨hexFixed (v / 2 ^ 96) 8 ++ '-' ::
    (hexFixed (v / 2 ^ 80 % 2 ^ 16) 4 ++ '-' ::
      (hexFixed (v / 2 ^ 64 % 2 ^ 16) 4 ++ '-' ::
        (hexFixed (v / 2 ^ 48 % 2 ^ 16) 4 ++ '-' :: hexFixed (v % 2 ^ 48) 12)))⟩

/-- `str(uuid.uuid4())[:8]`: the snippet id. -/
def genId (r : Nat) : String := strTake (uuidStr r) 8

/-- `add_text` (`POST /text`): `r` is the 128-bit value drawn for the UUID
and `now` the formatted current time.  Returns the response and new list,
or the uncaught Python exception. -/
def add_text (body : Py) (texts : List Snippet) (r : Nat) (now : String) :
    Except PyErr (Resp × List Snippet) :=
  if ¬ pyTruthy body then .ok (Resp.error 400 "没有内容", texts)
  else do
    let hasContent ← pyContains body "content"
    if ¬ hasContent then .ok (Resp.error 400 "没有内容", texts)
    else do
      let v ← pySubscript body "content"
      let content ← pyStripVal v
      if content = "" then .ok (Resp.error 400 "内容不能为空", texts)
      else .ok (Resp.success, ⟨genId r, content, now⟩ :: texts)

/-- `delete_text` (`DELETE /text/<text_id>`): filter out the id, persist,
always succeed. -/
def delete_text (texts : List Snippet) (tid : String) : Resp × List Snippet :=
  (Resp.success, texts.filter (fun t => t.id ≠ tid))

/-- `clear_texts` (`POST /clear-texts`). -/
def clear_texts (_texts : List Snippet) : Resp × List Snippet :=
  (Resp.success, [])

/-! ## Transport-level body size limit -/

/-- `MAX_CONTENT_LENGTH = 5000 * 1024 * 1024  # 500MB` from `app.py`. -/
def MAX_CONTENT_LENGTH : Nat := 5000 * 1024 * 1024

/-- The transport layer accepts a request body iff it does not exceed the
configured `MAX_CONTENT_LENGTH`. -/
def acceptsBody (bodyLen : Nat) : Bool := decide (bodyLen ≤ MAX_CONTENT_LENGTH)

/-! ## Claims about `delete_file`, `delete_text`, `add_text` -/

theorem dirNames_eraseP_not_mem (d : Dir) (name : String)
    (h : (dirNames d).Nodup) :
    name ∉ dirNames (d.eraseP (fun e => e.1 = name)) := by
  induction d with
  | nil => simp [dirNames]
  | cons e rest ih =>
    simp only [dirNames, List.map_cons, List.nodup_cons] at h
    by_cases he : e.1 = name
    · rw [List.eraseP_cons_of_pos (by simpa using he)]
      rw [← he]
      exact h.1
    · rw [List.eraseP_cons_of_neg (by simpa using he)]
      simp only [dirNames, List.map_cons, List.mem_cons]
      push_neg
      exact ⟨fun hn => he hn.symm, ih h.2⟩

theorem mem_eraseP_of_ne (d : Dir) (name : String) (e : String × String)
    (he : e ∈ d) (hne : e.1 ≠ name) :
    e ∈ d.eraseP (fun x => x.1 = name) := by
  induction d with
  | nil => simp at he
  | cons x rest ih =>
    by_cases hx : x.1 = name
    · rw [List.eraseP_cons_of_pos (by simpa using hx)]
      rcases List.mem_cons.mp he with rfl | hmem
      · exact absurd hx hne
      · exact hmem
    · rw [List.eraseP_cons_of_neg (by simpa using hx)]
      rcases List.mem_cons.mp he with rfl | hmem
      · exact List.mem_cons_self _ _
      · exact List.mem_cons_of_mem _ (ih hmem)

/-- C3: `delete_file` removes an existing file and reports success (the
named file is gone, every other file is untouched); on a missing name it
reports a 404 error and leaves the directory unchanged. -/
theorem delete_file_spec (d : Dir) (name : String) :
    (name ∈ dirNames d →
      (delete_file d name).1 = Resp.success ∧
      (delete_file d name).2 = d.eraseP (fun e => e.1 = name) ∧
      ((dirNames d).Nodup → name ∉ dirNames (delete_file d name).2) ∧
      (∀ e ∈ d, e.1 ≠ name → e ∈ (delete_file d name).2)) ∧
    (name ∉ dirNames d →
      delete_file d name = (Resp.error 404 "文件不存在", d)) := by
  constructor
  · intro hmem
    have hex : dirExists d name = true := by simpa [dirExists] using hmem
    refine ⟨by simp [delete_file, hex], by simp [delete_file, hex], ?_, ?_⟩
    · intro hnodup
      simpa [delete_file, hex] using dirNames_eraseP_not_mem d name hnodup
    · intro e he hne
      simpa [delete_file, hex] using mem_eraseP_of_ne d name e he hne
  · intro hmem
    have hex : dirExists d name = false := by simpa [dirExists] using hmem
    simp [delete_file, hex]

/-- Witness for C3 on a one-file directory and on a missing name. -/
theorem delete_file_spec_witness :
    (delete_file [("a.txt", "A")] "a.txt").1 = Resp.success ∧
    delete_file [("a.txt", "A")] "ghost.txt" =
      (Resp.error 404 "文件不存在", [("a.txt", "A")]) :=
  ⟨((delete_file_spec [("a.txt", "A")] "a.txt").1 (by decide)).1,
    (delete_file_spec [("a.txt", "A")] "ghost.txt").2 (by decide)⟩

/-- C9: removing a nonexistent snippet id succeeds and leaves the list
unchanged. -/
theorem delete_text_nonexistent (texts : List Snippet) (tid : String)
    (h : ∀ t ∈ texts, t.id ≠ tid) :
    delete_text texts tid = (Resp.success, texts) := by
  unfold delete_text
  rw [List.filter_eq_self.mpr]
  intro t ht
  simpa using h t ht

/-- Witness for C9. -/
theorem delete_text_nonexistent_witness :
    delete_text [⟨"abcd1234", "hello", "t"⟩] "ghost" =
      (Resp.success, [⟨"abcd1234", "hello", "t"⟩]) :=
  delete_text_nonexistent [⟨"abcd1234", "hello", "t"⟩] "ghost" (by decide)

/-- C5: adding a snippet stores exactly the trimmed content and prepends
it; adding A then B yields the list `[B, A, …]` (newest first). -/
theorem add_text_trim_prepend (texts : List Snippet) (cA cB : String)
    (rA rB : Nat) (tA tB : String)
    (hA : pyStrip cA ≠ "") (hB : pyStrip cB ≠ "") :
    add_text (Py.obj [("content", Py.str cA)]) texts rA tA =
      .ok (Resp.success, ⟨genId rA, pyStrip cA, tA⟩ :: texts) ∧
    add_text (Py.obj [("content", Py.str cB)])
        (⟨genId rA, pyStrip cA, tA⟩ :: texts) rB tB =
      .ok (Resp.success,
        ⟨genId rB, pyStrip cB, tB⟩ :: ⟨genId rA, pyStrip cA, tA⟩ :: texts) := by
  constructor
  · simp [add_text, pyTruthy, pyContains, pySubscript, pyStripVal, hA, Bind.bind, Except.bind,
      List.lookup]
  · simp [add_text, pyTruthy, pyContains, pySubscript, pyStripVal, hB, Bind.bind, Except.bind,
      List.lookup]

/-- Witness for C5 with the spec's `"  hello  "` example. -/
theorem add_text_trim_prepend_witness :
    add_text (Py.obj [("content", Py.str "  hello  ")]) [] 0 "t1" =
      .ok (Resp.success, [⟨genId 0, pyStrip "  hello  ", "t1"⟩]) ∧
    add_text (Py.obj [("content", Py.str "B")])
        [⟨genId 0, pyStrip "  hello  ", "t1"⟩] 1 "t2" =
      .ok (Resp.success,
        [⟨genId 1, pyStrip "B", "t2"⟩, ⟨genId 0, pyStrip "  hello  ", "t1"⟩]) :=
  add_text_trim_prepend [] "  hello  " "B" 0 1 "t1" "t2" (by decide) (by decide)

/-- C10: a `content` field that is present but not a string escapes the
400 branches and raises `AttributeError` at the `.strip()` call. -/
theorem add_text_nonstring_content (v : Py) (texts : List Snippet)
    (r : Nat) (now : String) (hv : ∀ s, v ≠ Py.str s) :
    add_text (Py.obj [("content", v)]) texts r now =
      .error PyErr.attributeError := by
  cases v with
  | str s => exact absurd rfl (hv s)
  | null => simp [add_text, pyTruthy, pyContains, pySubscript, pyStripVal, Bind.bind, Except.bind, List.lookup]
  | bool b => simp [add_text, pyTruthy, pyContains, pySubscript, pyStripVal, Bind.bind, Except.bind, List.lookup]
  | num n => simp [add_text, pyTruthy, pyContains, pySubscript, pyStripVal, Bind.bind, Except.bind, List.lookup]
  | arr elts => simp [add_text, pyTruthy, pyContains, pySubscript, pyStripVal, Bind.bind, Except.bind, List.lookup]
  | obj fields => simp [add_text, pyTruthy, pyContains, pySubscript, pyStripVal, Bind.bind, Except.bind, List.lookup]

/-- Witness for C10 with a numeric `content`. -/
theorem add_text_nonstring_content_witness :
    add_text (Py.obj [("content", Py.num 3)]) [] 0 "t" =
      .error PyErr.attributeError :=
  add_text_nonstring_content (Py.num 3) [] 0 "t" (fun s h => by cases h)

/-- C7 (code bug): the configured limit is `5000 * 1024 * 1024` bytes
(≈ 4.88 GiB), not the 500 MiB the comment and spec state, so a 600 MiB
body — above 500 MiB — is accepted by the transport layer. -/
theorem max_content_length_mismatch :
    MAX_CONTENT_LENGTH = 5242880000 ∧
    MAX_CONTENT_LENGTH ≠ 500 * 1024 * 1024 ∧
    500 * 1024 * 1024 < 600 * 1024 * 1024 ∧
    acceptsBody (600 * 1024 * 1024) = true := by
  refine ⟨by norm_num [MAX_CONTENT_LENGTH], by norm_num [MAX_CONTENT_LENGTH], by norm_num, ?_⟩
  simp [acceptsBody, MAX_CONTENT_LENGTH]

theorem any_key_of_lookup (fields : List (String × Py)) (v : Py)
    (h : fields.lookup "content" = some v) :
    fields.any (fun kv => kv.1 = "content") = true := by
  induction fields with
  | nil => simp [List.lookup] at h
  | cons kv rest ih =>
    by_cases hk : kv.1 = "content"
    · simp [hk]
    · rw [List.any_cons]
      have hne : ("content" == kv.1) = false := by
        simp [BEq.beq]
        exact fun he => hk he.symm
      rw [List.lookup] at h
      rw [hne] at h
      have hd : (decide (kv.1 = "content")) = false := by simpa using hk
      rw [hd, Bool.false_or]
      exact ih h

/-- C4 counterexample: a JSON body that is not an object but passes the
Python `in` test — the array `["content"]` — lacks a `content` field yet
does not get the 400 response: the handler raises `TypeError` at the
subscript `data['content']`. -/
theorem add_text_missing_content_counterexample :
    add_text (Py.arr [Py.str "content"]) [] 0 "t" = .error PyErr.typeError ∧
    ¬ ∃ msg, add_text (Py.arr [Py.str "content"]) [] 0 "t" =
      .ok (Resp.error 400 msg, ([] : List Snippet)) := by
  constructor
  · rfl
  · rintro ⟨msg, h⟩
    rw [show add_text (Py.arr [Py.str "content"]) [] 0 "t" = .error PyErr.typeError from rfl] at h
    exact Except.noConfusion h

/-- C4 amended: for a JSON body that is an object (the endpoint's intended
input), a missing `content` key, or a string `content` that is empty after
trimming, yields a structured 400 error and leaves the list unchanged;
bodies that are not objects can instead raise at the membership or
subscript step. -/
theorem add_text_client_error (fields : List (String × Py)) (texts : List Snippet)
    (r : Nat) (now : String) :
    ((∀ kv ∈ fields, kv.1 ≠ "content") →
      add_text (Py.obj fields) texts r now = .ok (Resp.error 400 "没有内容", texts)) ∧
    (∀ s, fields.lookup "content" = some (Py.str s) → pyStrip s = "" →
      add_text (Py.obj fields) texts r now = .ok (Resp.error 400 "内容不能为空", texts)) := by
  constructor
  · intro hnone
    match fields with
    | [] => rfl
    | kv :: rest =>
      have hany : ((kv :: rest).any (fun x => x.1 = "content")) = false := by
        rw [List.any_eq_false]
        intro x hx
        simpa using hnone x hx
      simp [add_text, pyTruthy, pyContains, hany, Bind.bind, Except.bind]
  · intro s hlook hstrip
    match fields with
    | [] => simp [List.lookup] at hlook
    | kv :: rest =>
      have hany := any_key_of_lookup (kv :: rest) (Py.str s) hlook
      simp [add_text, pyTruthy, pyContains, hany, pySubscript, hlook, pyStripVal,
        hstrip, Bind.bind, Except.bind]

/-- Witness for the amended C4: a body without `content` and a
whitespace-only `content` both give 400 with the list unchanged. -/
theorem add_text_client_error_witness :
    add_text (Py.obj [("other", Py.str "y")]) [] 0 "t" =
      .ok (Resp.error 400 "没有内容", []) ∧
    add_text (Py.obj [("content", Py.str "   ")]) [] 0 "t" =
      .ok (Resp.error 400 "内容不能为空", []) :=
  ⟨(add_text_client_error [("other", Py.str "y")] [] 0 "t").1
      (by intro kv hkv; rw [List.mem_singleton] at hkv; subst hkv; decide),
    (add_text_client_error [("content", Py.str "   ")] [] 0 "t").2 "   " rfl rfl⟩

/-- Helper for C6: every successful `add_text` prepends exactly one snippet,
whose id is `genId r`. -/
theorem add_text_success_shape (body : Py) (texts : List Snippet) (r : Nat)
    (now : String) (out : List Snippet)
    (h : add_text body texts r now = .ok (Resp.success, out)) :
    ∃ c, c ≠ "" ∧ out = ⟨genId r, c, now⟩ :: texts := by
  unfold add_text at h
  by_cases ht : pyTruthy body
  · cases hc : pyContains body "content" with
    | error e => simp [ht, hc, Bind.bind, Except.bind] at h
    | ok b =>
      cases b with
      | false => simp [ht, hc, Bind.bind, Except.bind] at h
      | true =>
        cases hs : pySubscript body "content" with
        | error e => simp [ht, hc, hs, Bind.bind, Except.bind] at h
        | ok v =>
          cases hv : pyStripVal v with
          | error e => simp [ht, hc, hs, hv, Bind.bind, Except.bind] at h
          | ok content =>
            by_cases hce : content = ""
            · simp [ht, hc, hs, hv, hce, Bind.bind, Except.bind] at h
            · simp [ht, hc, hs, hv, hce, Bind.bind, Except.bind] at h
              exact ⟨content, hce, h.symm⟩
  · simp [ht] at h

/-- C6 amended: every id `add_text` generates is an 8-character token
(`str(uuid.uuid4())[:8]`), and a successful add prepends exactly one
snippet carrying that id; uniqueness against existing ids is NOT checked
by the code (see the counterexample), so it holds only as long as the
random draws do not collide on their first 8 hex digits. -/
theorem snippet_id_eight_chars :
    (∀ r : Nat, (genId r).length = 8) ∧
    (∀ (body : Py) (texts : List Snippet) (r : Nat) (now : String)
        (out : List Snippet),
      add_text body texts r now = .ok (Resp.success, out) →
      ∃ c, c ≠ "" ∧ out = ⟨genId r, c, now⟩ :: texts) := by
  constructor
  · intro r
    simp [genId, strTake, uuidStr, hexFixed]
  · exact add_text_success_shape

/-- Witness for the amended C6. -/
theorem snippet_id_eight_chars_witness :
    (genId 0).length = 8 ∧
    ∃ c, c ≠ "" ∧
      [(⟨genId 0, "a", "t1"⟩ : Snippet)] = [⟨genId 0, c, "t1"⟩] :=
  ⟨snippet_id_eight_chars.1 0,
    snippet_id_eight_chars.2 (Py.obj [("content", Py.str "a")]) [] 0 "t1"
      [⟨genId 0, "a", "t1"⟩] rfl⟩

/-- C6 counterexample: the code never checks a fresh id against existing
ones, so two adds whose 128-bit draws coincide yield two distinct persisted
snippets with the same id. -/
theorem snippet_id_collision_counterexample :
    add_text (Py.obj [("content", Py.str "a")]) [] 0 "t1" =
      .ok (Resp.success, [⟨genId 0, "a", "t1"⟩]) ∧
    add_text (Py.obj [("content", Py.str "b")]) [⟨genId 0, "a", "t1"⟩] 0 "t2" =
      .ok (Resp.success, [⟨genId 0, "b", "t2"⟩, ⟨genId 0, "a", "t1"⟩]) ∧
    (⟨genId 0, "b", "t2"⟩ : Snippet) ≠ ⟨genId 0, "a", "t1"⟩ ∧
    Snippet.id ⟨genId 0, "b", "t2"⟩ = Snippet.id ⟨genId 0, "a", "t1"⟩ :=
  ⟨rfl, rfl, by decide, rfl⟩

/-! ## Download endpoint (`download_file`) -/

/-- The filesystem seen by the download path: contents addressed by
absolute paths given as segment lists.  Files outside the upload directory
(e.g. `/etc/passwd`) are entries whose path does not extend the upload
directory's. -/
abbrev FS := List (List String × String)

/-- Modelled from the spec: Flask's `/download/<filename>` route converter.
The default `<filename>` placeholder matches exactly one non-empty path
segment, so a requested name containing `/` never reaches the handler
(404 from routing). -/
def routeMatches (name : String) : Bool :=
  decide (¬ '/' ∈ name.data) && decide (name ≠ "")

/-- Modelled from the spec: the `send_from_directory` sanitization
(werkzeug `safe_join`) that the reference behavior relies on (§7).  For a
single path component it refuses an absolute component, `..`, and a
component beginning with `../`; anything else joins to a child of the
directory. -/
def safeJoinOk (name : String) : Bool :=
  !(['/'].isPrefixOf name.data) && decide (name ≠ "..") &&
    !(['.', '.', '/'].isPrefixOf name.data)

/-- `download_file` (`GET /download/<filename>`): route matching, safe-join
sanitization, then streaming of the file at `UPLOAD_FOLDER/name`; a missing
file is a 404 (`send_from_directory` raises `NotFound`). -/
def download (fs : FS) (uploadDir : List String) (name : String) :
    Except Resp String :=
  if ¬ routeMatches name then .error (Resp.error 404 "not found")
  else if ¬ safeJoinOk name then .error (Resp.error 404 "not found")
  else
    match fs.lookup (uploadDir ++ [name]) with
    | some content => .ok content
    | none => .error (Resp.error 404 "not found")

theorem fs_mem_of_lookup (l : FS) (k : List String) (v : String)
    (h : l.lookup k = some v) : (k, v) ∈ l := by
  induction l with
  | nil => simp [List.lookup] at h
  | cons e rest ih =>
    cases e with
    | mk k2 v2 =>
      rw [List.lookup] at h
      cases hk : (k == k2) with
      | true =>
        rw [hk] at h
        have hkey : k = k2 := eq_of_beq hk
        have hval : v2 = v := by simpa using h
        rw [hkey, ← hval]
        exact List.mem_cons_self _ _
      | false =>
        rw [hk] at h
        exact List.mem_cons_of_mem _ (ih h)

/-- C2: a requested filename containing a directory separator or the
parent reference `..` always gets a 404 and exposes nothing; moreover any
successful download reads exactly the entry at `UPLOAD_FOLDER/name` for a
single safe segment, never a path outside the upload directory. -/
theorem download_no_traversal (fs : FS) (uploadDir : List String) (name : String) :
    (('/' ∈ name.data ∨ name = "..") →
      download fs uploadDir name = .error (Resp.error 404 "not found")) ∧
    (∀ content, download fs uploadDir name = .ok content →
      ('/' ∉ name.data ∧ name ≠ "..") ∧ (uploadDir ++ [name], content) ∈ fs) := by
  constructor
  · intro h
    rcases h with h | h
    · have hr : routeMatches name = false := by
        unfold routeMatches
        simp [h]
      simp [download, hr]
    · subst h
      have hr : routeMatches ".." = true := by decide
      have hs : safeJoinOk ".." = false := by decide
      simp [download, hr, hs]
  · intro content h
    unfold download at h
    by_cases hr : routeMatches name
    · by_cases hs : safeJoinOk name
      · simp only [hr, hs, not_true_eq_false, if_false] at h
        cases hl : fs.lookup (uploadDir ++ [name]) with
        | some c =>
          rw [hl] at h
          have hc : c = content := by simpa using h
          have h1 := hr
          simp only [routeMatches, Bool.and_eq_true, decide_eq_true_eq] at h1
          have h2 := hs
          simp only [safeJoinOk, Bool.and_eq_true, Bool.not_eq_true',
            decide_eq_true_eq] at h2
          refine ⟨⟨h1.1, h2.1.2⟩, ?_⟩
          rw [← hc]
          exact fs_mem_of_lookup fs _ c hl
        | none =>
          rw [hl] at h
          exact Except.noConfusion h
      · simp [hr, hs] at h
    · simp [hr] at h

/-- Witness for C2 at the spec's `../../etc/passwd` probe, on a filesystem
that does contain `/etc/passwd`. -/
theorem download_no_traversal_witness :
    download [(["etc", "passwd"], "root:x:0:0"), (["srv", "uploads", "a.txt"], "A")]
        ["srv", "uploads"] "../../etc/passwd" =
      .error (Resp.error 404 "not found") :=
  (download_no_traversal _ ["srv", "uploads"] "../../etc/passwd").1
    (Or.inl (by decide))

/-! ## Text store persistence (`load_texts` / `save_texts`)

`save_texts` runs `json.dump(texts, f, ensure_ascii=False, indent=2)`;
`load_texts` runs `json.load(f)`.  The persisted document is always a JSON
array of objects with string keys and string values, so the embedding
renders and scans exactly that document shape: the serializer reproduces
`json.dump`'s `indent=2` layout character by character, and the parser
(modelled from the spec's description of the store file, since `json.load`
itself is library code) accepts the same documents with arbitrary
insignificant JSON whitespace and the full JSON string-escape repertoire. -/

/-- The text store's persisted document: an array of objects with string
keys and string values (Python dicts of strings). -/
abbrev Texts := List (List (String × String))

/-- JSON string escaping as `json.dump(…, ensure_ascii=False)` performs it:
the two mandatory escapes, the five short control escapes, `\u00XX` for the
remaining control characters, and every other character verbatim. -/
def escChar (c : Char) : List Char :=
  if c = '"' then ['\\', '"']
  else if c = '\\' then ['\\', '\\']
  else if c = '\n' then ['\\', 'n']
  else if c = '\t' then ['\\', 't']
  else if c = '\r' then ['\\', 'r']
  else if c = '\x08' then ['\\', 'b']
  else if c = '\x0c' then ['\\', 'f']
  else if c.toNat < 32 then
    '\\' :: 'u' :: '0' :: '0' ::
      hexDigitChar (c.toNat / 16) :: [hexDigitChar (c.toNat % 16)]
  else [c]

/-- Escape a whole string body. -/
def escapeList (cs : List Char) : List Char := cs.flatMap escChar

/-- A JSON string literal: `"…"` with the body escaped. -/
def quoteChars (s : String) : List Char := '"' :: (escapeList s.data ++ ['"'])

/-- Four spaces: the `indent=2` member indentation at nesting depth 1. -/
def sp4 : List Char := [' ', ' ', ' ', ' ']

/-- One `"key": "value"` member (`json.dump`'s `': '` key separator). -/
def pairChars (kv : String × String) : List Char :=
  quoteChars kv.1 ++ ':' :: ' ' :: quoteChars kv.2

/-- The members after the first one, each preceded by the `",\n    "`
item separator, then the `"\n  }"` closing of the object. -/
def objTailChars : List (String × String) → List Char
  | [] => ['\n', ' ', ' ', '}']
  | kv :: rest => ',' :: '\n' :: (sp4 ++ (pairChars kv ++ objTailChars rest))

/-- The inside of an object, after the opening `{`: either an immediate
`}` or `"\n    "`, the first member and the tail. -/
def objInner : List (String × String) → List Char
  | [] => ['}']
  | kv :: rest => '\n' :: (sp4 ++ (pairChars kv ++ objTailChars rest))

/-- A full object: `{}` or `{\n    "k": "v",\n    …\n  }`. -/
def objChars (kvs : List (String × String)) : List Char := '{' :: objInner kvs

/-- The array elements after the first one, each preceded by `",\n  "`,
then the closing `"\n]"`. -/
def arrTailChars : Texts → List Char
  | [] => ['\n', ']']
  | o :: rest => ',' :: '\n' :: ' ' :: ' ' :: (objChars o ++ arrTailChars rest)

/-- The full document: `[]` or `[\n  {…},\n  {…}\n]`. -/
def arrChars : Texts → List Char
  | [] => ['[', ']']
  | o :: rest => '[' :: '\n' :: ' ' :: ' ' :: (objChars o ++ arrTailChars rest)

/-- `save_texts(texts)`: the exact byte content `json.dump(texts, f,
ensure_ascii=False, indent=2)` writes for the store's document. -/
def save_texts (ts : Texts) : String := ⟨arrChars ts⟩

/-- JSON insignificant whitespace. -/
def jsonWs (c : Char) : Bool := c = ' ' || c = '\t' || c = '\n' || c = '\r'

/-- Skip insignificant whitespace. -/
def skipWs (cs : List Char) : List Char := cs.dropWhile jsonWs

/-- Hexadecimal digit value as accepted inside `\uXXXX`. -/
def hexVal? (c : Char) : Option Nat :=
  if 48 ≤ c.toNat ∧ c.toNat ≤ 57 then some (c.toNat - 48)
  else if 97 ≤ c.toNat ∧ c.toNat ≤ 102 then some (c.toNat - 87)
  else if 65 ≤ c.toNat ∧ c.toNat ≤ 70 then some (c.toNat - 55)
  else none

/-- Decoding of a single-character JSON escape: the short control escapes
map to their control characters, and the three punctuation escapes map to
themselves. -/
def escDecode (e : Char) : Option Char :=
  if e = 'n' then some '\n'
  else if e = 't' then some '\t'
  else if e = 'r' then some '\r'
  else if e = 'b' then some '\x08'
  else if e = 'f' then some '\x0c'
  else if e = '"' || e = '\\' || e = '/' then some e
  else none

/-- Modelled from the spec: `json.load`'s string scanner, positioned after
the opening quote; returns the decoded body and the input after the
closing quote.  Raw control characters are a parse error, `\uXXXX` decodes
its code point (surrogate pairs, which the store never writes, are outside
the model). -/
def parseStringBody : List Char → Option (List Char × List Char)
  | [] => none
  | c :: rest =>
      if c = '"' then some ([], rest)
      else if c = '\\' then
        match rest with
        | 'u' :: h1 :: h2 :: h3 :: h4 :: rest2 =>
            (match hexVal? h1, hexVal? h2, hexVal? h3, hexVal? h4 with
             | some a, some b, some c, some d =>
                 match parseStringBody rest2 with
                 | some (cs, r) =>
                     some (Char.ofNat (((a * 16 + b) * 16 + c) * 16 + d) :: cs, r)
                 | none => none
             | _, _, _, _ => none)
        | e :: rest2 =>
            (match escDecode e with
             | some d =>
                 match parseStringBody rest2 with
                 | some (cs, r) => some (d :: cs, r)
                 | none => none
             | none => none)
        | [] => none
      else if c.toNat < 32 then none
      else
        match parseStringBody rest with
        | some (cs, r) => some (c :: cs, r)
        | none => none

/-- Scan one `"key": "value"` member (leading whitespace allowed). -/
def parsePair (cs : List Char) : Option ((String × String) × List Char) :=
  match skipWs cs with
  | '"' :: r1 =>
      match parseStringBody r1 with
      | some (k, r2) =>
          (match skipWs r2 with
           | ':' :: r3 =>
               match skipWs r3 with
               | '"' :: r4 =>
                   match parseStringBody r4 with
                   | some (v, r5) => some ((⟨k⟩, ⟨v⟩), r5)
                   | none => none
               | _ => none
           | _ => none)
      | none => none
  | _ => none

/-- Scan the members after the first one: `, member`* `}`. -/
def parseObjTail : Nat → List Char → Option (List (String × String) × List Char)
  | 0, _ => none
  | fuel + 1, cs =>
      match skipWs cs with
      | '}' :: r => some ([], r)
      | ',' :: r =>
          (match parsePair r with
           | some (kv, r2) =>
               match parseObjTail fuel r2 with
               | some (kvs, r3) => some (kv :: kvs, r3)
               | none => none
           | none => none)
      | _ => none

/-- Scan an object body, positioned after the opening `{`. -/
def parseObjBody (fuel : Nat) (cs : List Char) :
    Option (List (String × String) × List Char) :=
  match skipWs cs with
  | '}' :: r => some ([], r)
  | _ =>
      match parsePair cs with
      | some (kv, r2) =>
          (match parseObjTail fuel r2 with
           | some (kvs, r3) => some (kv :: kvs, r3)
           | none => none)
      | none => none

/-- Scan the array elements after the first one: `, object`* `]`. -/
def parseArrTail : Nat → Nat → List Char → Option (Texts × List Char)
  | _, 0, _ => none
  | ofuel, afuel + 1, cs =>
      match skipWs cs with
      | ']' :: r => some ([], r)
      | ',' :: r =>
          (match skipWs r with
           | '{' :: r2 =>
               match parseObjBody ofuel r2 with
               | some (o, r3) =>
                   (match parseArrTail ofuel afuel r3 with
                    | some (os, r4) => some (o :: os, r4)
                    | none => none)
               | none => none
           | _ => none)
      | _ => none

/-- `load_texts()`: parse the persisted document (an array of string-valued
objects) and demand only trailing whitespace after it, as `json.load`
does. -/
def load_texts (s : String) : Option Texts :=
  let cs := s.data
  let fuel := cs.length + 1
  match skipWs cs with
  | '[' :: r =>
      (match skipWs r with
       | ']' :: r2 => if skipWs r2 = [] then some [] else none
       | '{' :: r2 =>
           match parseObjBody fuel r2 with
           | some (o, r3) =>
               (match parseArrTail fuel fuel r3 with
                | some (os, r4) => if skipWs r4 = [] then some (o :: os) else none
                | none => none)
           | none => none
       | _ => none)
  | _ => none

theorem hexVal?_hexDigitChar {n : Nat} (h : n < 16) :
    hexVal? (hexDigitChar n) = some n := by
  interval_cases n <;> rfl

theorem skipWs_cons_of_ws {c : Char} (h : jsonWs c = true) (cs : List Char) :
    skipWs (c :: cs) = skipWs cs := by
  simp [skipWs, List.dropWhile_cons, h]

theorem skipWs_cons_of_not_ws {c : Char} (h : jsonWs c = false) (cs : List Char) :
    skipWs (c :: cs) = c :: cs := by
  simp [skipWs, List.dropWhile_cons, h]

theorem skipWs_append_ws (pre cs : List Char) (h : pre.all jsonWs = true) :
    skipWs (pre ++ cs) = skipWs cs := by
  induction pre with
  | nil => rfl
  | cons c p ih =>
    rw [List.all_cons, Bool.and_eq_true] at h
    rw [List.cons_append, skipWs_cons_of_ws h.1, ih h.2]

theorem psb_quote (l : List Char) : parseStringBody ('"' :: l) = some ([], l) := by
  rw [parseStringBody.eq_def]
  simp

theorem psb_esc_quote (l : List Char) :
    parseStringBody ('\\' :: '"' :: l) =
      match parseStringBody l with
      | some (cs, r) => some ('"' :: cs, r)
      | none => none := by
  rw [parseStringBody.eq_def]
  simp [escDecode]

theorem psb_esc_bs (l : List Char) :
    parseStringBody ('\\' :: '\\' :: l) =
      match parseStringBody l with
      | some (cs, r) => some ('\\' :: cs, r)
      | none => none := by
  rw [parseStringBody.eq_def]
  simp [escDecode]

theorem psb_esc_n (l : List Char) :
    parseStringBody ('\\' :: 'n' :: l) =
      match parseStringBody l with
      | some (cs, r) => some ('\n' :: cs, r)
      | none => none := by
  rw [parseStringBody.eq_def]
  simp [escDecode]

theorem psb_esc_t (l : List Char) :
    parseStringBody ('\\' :: 't' :: l) =
      match parseStringBody l with
      | some (cs, r) => some ('\t' :: cs, r)
      | none => none := by
  rw [parseStringBody.eq_def]
  simp [escDecode]

theorem psb_esc_r (l : List Char) :
    parseStringBody ('\\' :: 'r' :: l) =
      match parseStringBody l with
      | some (cs, r) => some ('\r' :: cs, r)
      | none => none := by
  rw [parseStringBody.eq_def]
  simp [escDecode]

theorem psb_esc_b (l : List Char) :
    parseStringBody ('\\' :: 'b' :: l) =
      match parseStringBody l with
      | some (cs, r) => some ('\x08' :: cs, r)
      | none => none := by
  rw [parseStringBody.eq_def]
  simp [escDecode]

theorem psb_esc_f (l : List Char) :
    parseStringBody ('\\' :: 'f' :: l) =
      match parseStringBody l with
      | some (cs, r) => some ('\x0c' :: cs, r)
      | none => none := by
  rw [parseStringBody.eq_def]
  simp [escDecode]

theorem psb_esc_u (h1 h2 h3 h4 : Char) (l : List Char) :
    parseStringBody ('\\' :: 'u' :: h1 :: h2 :: h3 :: h4 :: l) =
      match hexVal? h1, hexVal? h2, hexVal? h3, hexVal? h4 with
      | some a, some b, some c, some d =>
          (match parseStringBody l with
           | some (cs, r) =>
               some (Char.ofNat (((a * 16 + b) * 16 + c) * 16 + d) :: cs, r)
           | none => none)
      | _, _, _, _ => none := by
  rw [parseStringBody.eq_def]
  simp

theorem psb_plain (c : Char) (l : List Char) (h1 : c ≠ '"') (h2 : c ≠ '\\')
    (h8 : ¬ c.toNat < 32) :
    parseStringBody (c :: l) =
      match parseStringBody l with
      | some (cs, r) => some (c :: cs, r)
      | none => none := by
  conv_lhs => rw [parseStringBody.eq_def]
  simp only []
  rw [if_neg h1, if_neg h2, if_neg h8]

theorem parseStringBody_escape (cs : List Char) :
    ∀ rest, parseStringBody (escapeList cs ++ '"' :: rest) = some (cs, rest) := by
  induction cs with
  | nil => intro rest; exact psb_quote rest
  | cons c cs ih =>
    intro rest
    have hesc : escapeList (c :: cs) ++ '"' :: rest =
        escChar c ++ (escapeList cs ++ '"' :: rest) := by
      simp [escapeList, List.append_assoc]
    rw [hesc]
    unfold escChar
    by_cases h1 : c = '"'
    · subst h1
      rw [if_pos rfl]
      simp only [List.cons_append, List.nil_append]
      rw [psb_esc_quote, ih rest]
    by_cases h2 : c = '\\'
    · subst h2
      rw [if_neg h1, if_pos rfl]
      simp only [List.cons_append, List.nil_append]
      rw [psb_esc_bs, ih rest]
    by_cases h3 : c = '\n'
    · subst h3
      rw [if_neg h1, if_neg h2, if_pos rfl]
      simp only [List.cons_append, List.nil_append]
      rw [psb_esc_n, ih rest]
    by_cases h4 : c = '\t'
    · subst h4
      rw [if_neg h1, if_neg h2, if_neg h3, if_pos rfl]
      simp only [List.cons_append, List.nil_append]
      rw [psb_esc_t, ih rest]
    by_cases h5 : c = '\r'
    · subst h5
      rw [if_neg h1, if_neg h2, if_neg h3, if_neg h4, if_pos rfl]
      simp only [List.cons_append, List.nil_append]
      rw [psb_esc_r, ih rest]
    by_cases h6 : c = '\x08'
    · subst h6
      rw [if_neg h1, if_neg h2, if_neg h3, if_neg h4, if_neg h5, if_pos rfl]
      simp only [List.cons_append, List.nil_append]
      rw [psb_esc_b, ih rest]
    by_cases h7 : c = '\x0c'
    · subst h7
      rw [if_neg h1, if_neg h2, if_neg h3, if_neg h4, if_neg h5, if_neg h6,
        if_pos rfl]
      simp only [List.cons_append, List.nil_append]
      rw [psb_esc_f, ih rest]
    by_cases h8 : c.toNat < 32
    · rw [if_neg h1, if_neg h2, if_neg h3, if_neg h4, if_neg h5, if_neg h6,
        if_neg h7, if_pos h8]
      simp only [List.cons_append, List.nil_append]
      rw [psb_esc_u]
      rw [show hexVal? '0' = some 0 from rfl,
        hexVal?_hexDigitChar (show c.toNat / 16 < 16 by omega),
        hexVal?_hexDigitChar (show c.toNat % 16 < 16 from Nat.mod_lt _ (by omega))]
      simp only [ih rest]
      have hval : ((0 * 16 + 0) * 16 + c.toNat / 16) * 16 + c.toNat % 16 = c.toNat := by
        omega
      rw [hval, Char.ofNat_toNat c]
    · rw [if_neg h1, if_neg h2, if_neg h3, if_neg h4, if_neg h5, if_neg h6,
        if_neg h7, if_neg h8]
      simp only [List.cons_append, List.nil_append]
      rw [psb_plain c _ h1 h2 h8, ih rest]

theorem parsePair_serialized (kv : String × String) (pre rest : List Char)
    (hpre : pre.all jsonWs = true) :
    parsePair (pre ++ (pairChars kv ++ rest)) = some (kv, rest) := by
  obtain ⟨k, v⟩ := kv
  have hshape : pairChars (k, v) ++ rest =
      '"' :: (escapeList k.data ++ '"' ::
        (':' :: ' ' :: ('"' :: (escapeList v.data ++ '"' :: rest)))) := by
    simp [pairChars, quoteChars, List.append_assoc]
  rw [hshape]
  unfold parsePair
  rw [skipWs_append_ws _ _ hpre, skipWs_cons_of_not_ws (by decide)]
  simp only []
  rw [parseStringBody_escape k.data]
  simp only []
  rw [skipWs_cons_of_not_ws (by decide)]
  simp only []
  rw [skipWs_cons_of_ws (by decide), skipWs_cons_of_not_ws (by decide)]
  simp only []
  rw [parseStringBody_escape v.data]

theorem parseObjTail_serialized :
    ∀ (kvs : List (String × String)) (fuel : Nat) (rest : List Char),
      kvs.length < fuel →
      parseObjTail fuel (objTailChars kvs ++ rest) = some (kvs, rest) := by
  intro kvs
  induction kvs with
  | nil =>
    intro fuel rest hf
    match fuel, hf with
    | fuel + 1, _ =>
      show parseObjTail (fuel + 1) ('\n' :: ' ' :: ' ' :: '}' :: rest) = some ([], rest)
      rw [parseObjTail]
      rw [skipWs_cons_of_ws (by decide), skipWs_cons_of_ws (by decide),
        skipWs_cons_of_ws (by decide), skipWs_cons_of_not_ws (by decide)]
      rfl
  | cons kv ktail ih =>
    intro fuel rest hf
    match fuel, hf with
    | fuel + 1, hf =>
      have hshape : objTailChars (kv :: ktail) ++ rest =
          ',' :: (('\n' :: sp4) ++ (pairChars kv ++ (objTailChars ktail ++ rest))) := by
        simp [objTailChars, sp4, List.append_assoc]
      rw [hshape, parseObjTail, skipWs_cons_of_not_ws (by decide)]
      simp only []
      rw [parsePair_serialized kv ('\n' :: sp4) _ (by decide)]
      simp only []
      rw [ih fuel _ (by simpa using hf)]

theorem parseObjBody_serialized (kvs : List (String × String)) (fuel : Nat)
    (rest : List Char) (hf : kvs.length ≤ fuel) :
    parseObjBody fuel (objInner kvs ++ rest) = some (kvs, rest) := by
  cases kvs with
  | nil =>
    show parseObjBody fuel ('}' :: rest) = some ([], rest)
    unfold parseObjBody
    rw [skipWs_cons_of_not_ws (by decide)]
    rfl
  | cons kv ktail =>
    have hshape : objInner (kv :: ktail) ++ rest =
        ('\n' :: sp4) ++ (pairChars kv ++ (objTailChars ktail ++ rest)) := by
      simp [objInner, sp4, List.append_assoc]
    rw [hshape]
    unfold parseObjBody
    rw [skipWs_append_ws _ _ (by decide)]
    have hq : skipWs (pairChars kv ++ (objTailChars ktail ++ rest)) =
        '"' :: ((escapeList kv.1.data ++ ['"']) ++
          (':' :: ' ' :: quoteChars kv.2 ++ (objTailChars ktail ++ rest))) := by
      obtain ⟨k, v⟩ := kv
      show skipWs ((quoteChars k ++ ':' :: ' ' :: quoteChars v) ++ _) = _
      rw [show (quoteChars k ++ ':' :: ' ' :: quoteChars v) ++
          (objTailChars ktail ++ rest) =
          '"' :: ((escapeList k.data ++ ['"']) ++
            (':' :: ' ' :: quoteChars v ++ (objTailChars ktail ++ rest))) by
        simp [quoteChars, List.append_assoc]]
      rw [skipWs_cons_of_not_ws (by decide)]
    rw [hq]
    show (match parsePair (('\n' :: sp4) ++ (pairChars kv ++ (objTailChars ktail ++ rest))) with
      | some (kv, r2) =>
          (match parseObjTail fuel r2 with
           | some (kvs, r3) => some (kv :: kvs, r3)
           | none => none)
      | none => none) = some (kv :: ktail, rest)
    rw [parsePair_serialized kv ('\n' :: sp4) _ (by decide)]
    simp only []
    rw [parseObjTail_serialized ktail fuel _ (by simpa using hf)]

theorem parseArrTail_serialized :
    ∀ (ts : Texts) (ofuel afuel : Nat) (rest : List Char),
      ts.length < afuel →
      (∀ o ∈ ts, o.length ≤ ofuel) →
      parseArrTail ofuel afuel (arrTailChars ts ++ rest) = some (ts, rest) := by
  intro ts
  induction ts with
  | nil =>
    intro ofuel afuel rest ha _
    match afuel, ha with
    | afuel + 1, _ =>
      show parseArrTail ofuel (afuel + 1) ('\n' :: ']' :: rest) = some ([], rest)
      rw [parseArrTail]
      rw [skipWs_cons_of_ws (by decide), skipWs_cons_of_not_ws (by decide)]
      rfl
  | cons o ts' ih =>
    intro ofuel afuel rest ha ho
    match afuel, ha with
    | afuel + 1, ha =>
      have hshape : arrTailChars (o :: ts') ++ rest =
          ',' :: ('\n' :: ' ' :: ' ' :: ('{' :: (objInner o ++ (arrTailChars ts' ++ rest)))) := by
        simp [arrTailChars, objChars, List.append_assoc]
      rw [hshape, parseArrTail, skipWs_cons_of_not_ws (by decide)]
      show (match skipWs ('\n' :: ' ' :: ' ' :: ('{' :: (objInner o ++ (arrTailChars ts' ++ rest)))) with
        | '{' :: r2 =>
            (match parseObjBody ofuel r2 with
             | some (o, r3) =>
                 (match parseArrTail ofuel afuel r3 with
                  | some (os, r4) => some (o :: os, r4)
                  | none => none)
             | none => none)
        | _ => none) = some (o :: ts', rest)
      rw [skipWs_cons_of_ws (by decide), skipWs_cons_of_ws (by decide),
        skipWs_cons_of_ws (by decide), skipWs_cons_of_not_ws (by decide)]
      simp only []
      rw [parseObjBody_serialized o ofuel _ (ho o (List.mem_cons_self _ _))]
      simp only []
      rw [ih ofuel afuel rest (by simpa using ha)
        (fun o' ho' => ho o' (List.mem_cons_of_mem _ ho'))]

theorem objTailChars_length_ge (kvs : List (String × String)) :
    kvs.length ≤ (objTailChars kvs).length := by
  induction kvs with
  | nil => simp [objTailChars]
  | cons kv t ih =>
    simp only [objTailChars, sp4, List.length_cons, List.length_append]
    omega

theorem objInner_length_ge (kvs : List (String × String)) :
    kvs.length ≤ (objInner kvs).length := by
  cases kvs with
  | nil => simp [objInner]
  | cons kv t =>
    have := objTailChars_length_ge t
    simp only [objInner, sp4, List.length_cons, List.length_append]
    omega

theorem arrTailChars_length_ge (ts : Texts) :
    ts.length ≤ (arrTailChars ts).length := by
  induction ts with
  | nil => simp [arrTailChars]
  | cons o t ih =>
    simp only [arrTailChars, List.length_cons, List.length_append]
    omega

theorem arrTailChars_mem_bound (ts : Texts) :
    ∀ o ∈ ts, (objInner o).length ≤ (arrTailChars ts).length := by
  induction ts with
  | nil => intro o ho; simp at ho
  | cons x t ih =>
    intro o ho
    rcases List.mem_cons.mp ho with rfl | ho'
    · simp only [arrTailChars, objChars, List.length_cons, List.length_append]
      omega
    · have := ih o ho'
      simp only [arrTailChars, List.length_cons, List.length_append]
      omega

theorem load_texts_save_texts (ts : Texts) :
    load_texts (save_texts ts) = some ts := by
  cases ts with
  | nil => rfl
  | cons o ts' =>
    have hdata : (save_texts (o :: ts')).data =
        '[' :: ('\n' :: ' ' :: ' ' :: ('{' :: (objInner o ++ arrTailChars ts'))) := by
      simp [save_texts, arrChars, objChars, List.append_assoc]
    have hlen : (save_texts (o :: ts')).data.length =
        5 + (objInner o).length + (arrTailChars ts').length := by
      rw [hdata]
      simp only [List.length_cons, List.length_append]
      omega
    have hbound1 : o.length ≤ (save_texts (o :: ts')).data.length + 1 := by
      have h1 := objInner_length_ge o
      omega
    have hbound2 : ts'.length < (save_texts (o :: ts')).data.length + 1 := by
      have h1 := arrTailChars_length_ge ts'
      omega
    have hbound3 : ∀ o' ∈ ts', o'.length ≤ (save_texts (o :: ts')).data.length + 1 := by
      intro o' ho'
      have h1 := objInner_length_ge o'
      have h2 := arrTailChars_mem_bound ts' o' ho'
      omega
    show load_texts (save_texts (o :: ts')) = some (o :: ts')
    unfold load_texts
    simp only []
    generalize hF : (save_texts (o :: ts')).data.length + 1 = F
    rw [hF] at hbound1 hbound2 hbound3
    rw [hdata, skipWs_cons_of_not_ws (by decide)]
    simp only []
    rw [skipWs_cons_of_ws (by decide), skipWs_cons_of_ws (by decide),
      skipWs_cons_of_ws (by decide), skipWs_cons_of_not_ws (by decide)]
    simp only []
    rw [parseObjBody_serialized o F _ hbound1]
    simp only []
    rw [show arrTailChars ts' = arrTailChars ts' ++ [] from (List.append_nil _).symm,
      parseArrTail_serialized ts' F F [] hbound2 hbound3]
    rfl

/-- C8: the store's read-then-write cycle is the identity on the persisted
bytes: `load_texts` parses back exactly the list `save_texts` wrote, so
rewriting what was just read reproduces the file byte for byte. -/
theorem text_store_roundtrip (ts : Texts) :
    load_texts (save_texts ts) = some ts ∧
    Option.map save_texts (load_texts (save_texts ts)) = some (save_texts ts) := by
  have h := load_texts_save_texts ts
  exact ⟨h, by rw [h]; rfl⟩

end LANShare
